import Mathlib

/-!
Shallow embedding of the GraphRAG PDF-ingestion pipeline
(`src/utils/pdf_utils.py` and `src/ingest/ingest_pdfs_to_neo4j.py`).

External collaborators (the filesystem, the pypdf page reader, the
`RecursiveCharacterTextSplitter`, the Neo4j graph store, the embedding /
vector-index builder) are modelled as parameters: the filesystem as a
predicate `isFile`, the pypdf reader as a per-path list of per-page
extraction outcomes (a page either returns an optional string or throws),
the splitter as a function from the two size parameters and a page text to
a list of parts, and the graph store as an explicit association-list state
on which the two Cypher `MERGE` queries of the source are interpreted.
Python-specific behaviours (truthiness of `or` / `if not`, `int(...)`
coercion with exception fallback, `os.path.basename`, `str.strip`) are
embedded by small helper functions; `int(...)` applied to a string is
modelled by `String.toInt?` and `str.strip()` emptiness by `String.trim`.
-/

set_option autoImplicit false

namespace GraphRAG

/-- A JSON scalar as it can appear in a manifest field that is fed to
`_as_int` (`PageCount` / `pages`): an integer, a string, or absent/null
(`dict.get` returns `None` for a missing key). -/
inductive JVal where
  | i (v : Int)
  | s (v : String)
  | null
deriving DecidableEq, Repr

/-- Python truthiness of a `JVal`: `0`, `""` and `None` are falsy. -/
def JVal.truthy : JVal → Bool
  | .i v => v != 0
  | .s v => v != ""
  | .null => false

/-- Python `a or b` on manifest scalar values. -/
def pyOrJ (a b : JVal) : JVal :=
  if a.truthy then a else b

/-- `_as_int` from `src/ingest/ingest_pdfs_to_neo4j.py`: `int(v)` with any
exception mapped to the default.  `int` of an `int` is the identity, `int`
of a string parses it (modelled by `String.toInt?`), and `int(None)`
throws, giving the default. -/
def as_int (v : JVal) (default : Int) : Int :=
  match v with
  | .i n => n
  | .s t => match t.toInt? with
            | some n => n
            | none => default
  | .null => default

/-- Python truthiness of an optional string (`None` and `""` are falsy). -/
def falsyS : Option String → Bool
  | none => true
  | some s => s == ""

/-- Python `a or b` on optional strings: `a` when truthy, else `b`. -/
def pyOrS (a b : Option String) : Option String :=
  if falsyS a then b else a

/-- Python `a or d` where `d` is a (string) fallback expression, as used
for the metadata fields: the value of `a` when truthy, else `d`. -/
def pyOrStr (a : Option String) (d : String) : String :=
  match a with
  | some s => if s = "" then d else s
  | none => d

/-- `os.path.basename`: the component after the last `/` (computed over
the character list; a left fold that restarts at each separator). -/
def basename (p : String) : String :=
  String.mk (p.data.foldl (fun acc ch => if ch = '/' then [] else acc ++ [ch]) [])

/-! ## `src/utils/pdf_utils.py` -/

/-- Outcome of `page.extract_text()` for one page: the call either throws
(`Except.error`) or returns `None` / a string. -/
abbrev PageOutcome : Type := Except Unit (Option String)

/-- `txt = page.extract_text() or ""` wrapped in `try/except`: a throwing
page and a `None`/empty result all give `""`. -/
def pageText : PageOutcome → String
  | .error _ => ""
  | .ok none => ""
  | .ok (some t) => t

/-- The external collaborators of the pipeline. -/
structure Env where
  /-- `os.path.isfile` -/
  isFile : String → Bool
  /-- the pypdf reader: per path, the list of per-page extraction outcomes
  (`reader.pages` with each page's `extract_text()` behaviour) -/
  readerPages : String → List PageOutcome
  /-- `RecursiveCharacterTextSplitter(chunk_size, chunk_overlap).split_text` -/
  split : Nat → Nat → String → List String

/-- `extract_pdf_text_by_page` from `src/utils/pdf_utils.py`: empty list
when the file does not exist, otherwise one string per page, with a
throwing page recovered to `""`. -/
def extract_pdf_text_by_page (env : Env) (path : String) : List String :=
  if env.isFile path then (env.readerPages path).map pageText else []

/-- Python `not part.strip()`: true exactly when the string is empty or
consists of whitespace only. -/
def isBlank (s : String) : Bool :=
  s.data.all Char.isWhitespace

/-- One element of the list returned by `chunk_pages`:
the dict `{"page": i, "idx": j, "text": part}`. -/
structure ChunkRec where
  page : Nat
  idx : Nat
  text : String
deriving DecidableEq, Repr

/-- The inner loop of `chunk_pages`: `for j, part in enumerate(parts)`
starting at position `j`, keeping `{"page": i, "idx": j, "text": part}`
for each part whose `part.strip()` is non-empty. -/
def splitFilterAux (i : Nat) : Nat → List String → List ChunkRec
  | _, [] => []
  | j, part :: rest =>
      (if isBlank part then [] else [⟨i, j, part⟩]) ++ splitFilterAux i (j + 1) rest

/-- The outer loop of `chunk_pages`: `for i, page_text in enumerate(pages,
start=1)` starting at page number `i`, skipping falsy page texts and
splitting the rest with the splitter `f`. -/
def chunkPagesAux (f : String → List String) : Nat → List String → List ChunkRec
  | _, [] => []
  | i, t :: rest =>
      (if t = "" then [] else splitFilterAux i 0 (f t)) ++ chunkPagesAux f (i + 1) rest

/-- `chunk_pages` from `src/utils/pdf_utils.py`, parameterized by the
external splitter. -/
def chunk_pages (splitter : Nat → Nat → String → List String)
    (pages : List String) (chunk_size chunk_overlap : Nat) : List ChunkRec :=
  chunkPagesAux (splitter chunk_size chunk_overlap) 1 pages

/-! ## The graph store

The Neo4j store is modelled as association lists: `MERGE (n {key}) SET
props` updates every entry with the key (creating one at the end when
absent) — this is exactly Cypher `MERGE` semantics on a store whose nodes
are identified by their merge-key properties. -/

/-- Whether the record list holds an entry with key `k` (`MATCH` by merge
key). -/
def hasKey {α β : Type} [DecidableEq α] (k : α) (l : List (α × β)) : Bool :=
  l.any (fun e => decide (e.1 = k))

/-- `MERGE` on a keyed record list followed by `SET` of its value:
update every entry carrying the key, or append a fresh entry when the key
is absent. -/
def upsertList {α β : Type} [DecidableEq α] (k : α) (v : β) (l : List (α × β)) : List (α × β) :=
  if hasKey k l then
    l.map (fun e => if e.1 = k then (k, v) else e)
  else
    l ++ [(k, v)]

/-- `MERGE` on a relationship: create it only when absent. -/
def insertIfAbsent {γ : Type} [DecidableEq γ] (r : γ) (l : List γ) : List γ :=
  if r ∈ l then l else l ++ [r]

/-- Stored properties of a `Document` node (everything but the merge key
`path`). -/
structure DocProps where
  title : String
  file_name : String
  page_count : Int
  mime_type : String
deriving DecidableEq, Repr

/-- Merge key of a `Chunk` node: `{doc_path, page, idx}`. -/
abbrev ChunkKey : Type := String × Nat × Nat

/-- The merge key of the chunk `c` of document `path`. -/
def chunkKey (path : String) (c : ChunkRec) : ChunkKey :=
  (path, c.page, c.idx)

/-- The graph store state: `Document` nodes keyed by `path`, `Chunk` nodes
keyed by `(doc_path, page, idx)` holding their `content`, and the
`HAS_CHUNK` relationships. -/
structure GraphState where
  docs : List (String × DocProps)
  chunks : List (ChunkKey × String)
  rels : List (String × ChunkKey)
deriving DecidableEq, Repr

/-- The empty graph store. -/
def emptyGraph : GraphState := ⟨[], [], []⟩

/-- One round of the `UNWIND $chunks` body:
`MERGE (c:Chunk {doc_path: $path, page: chunk.page, idx: chunk.idx})
SET c.content = chunk.text MERGE (d)-[:HAS_CHUNK]->(c)`. -/
def mergeChunk (path : String) (g : GraphState) (c : ChunkRec) : GraphState :=
  { g with
    chunks := upsertList (chunkKey path c) c.text g.chunks
    rels := insertIfAbsent (path, chunkKey path c) g.rels }

/-- The `UNWIND $chunks AS chunk` loop over the chunk batch. -/
def applyChunks (path : String) (g : GraphState) (cs : List ChunkRec) : GraphState :=
  cs.foldl (mergeChunk path) g

/-- The two parameterized write queries `ingest_from_json` can issue. -/
inductive Query where
  /-- the document-only registration query (empty chunk list branch) -/
  | docOnly (path : String) (props : DocProps)
  /-- the combined document-plus-chunks upsert query -/
  | docWithChunks (path : String) (props : DocProps) (chunks : List ChunkRec)
deriving DecidableEq, Repr

/-- `graph.query(...)`: the effect of one write query on the store.  Both
queries `MERGE` the document by `path` and `SET` its properties; the
second then runs the `UNWIND` loop over the chunk batch. -/
def applyQuery (g : GraphState) : Query → GraphState
  | .docOnly path props => { g with docs := upsertList path props g.docs }
  | .docWithChunks path props cs =>
      applyChunks path { g with docs := upsertList path props g.docs } cs

/-! ## `src/ingest/ingest_pdfs_to_neo4j.py` -/

/-- One manifest entry, with exactly the keys `ingest_from_json` reads
(`dict.get` on an absent key gives `none` / `JVal.null`).  The field for
the manifest key `"pages"` is named `pagesF` to avoid clashing with the
extracted page list. -/
structure Item where
  path : Option String
  Path : Option String
  title : Option String
  Title : Option String
  FileName : Option String
  MIMEType : Option String
  mime_type : Option String
  PageCount : JVal
  pagesF : JVal
deriving DecidableEq, Repr

/-- The document metadata computed from a manifest entry before the
chunk-emptiness branch:
`title`, `file_name`, `mime_type` with their truthiness fallbacks, and
`page_count = _as_int(item.get("PageCount") or item.get("pages") or 0)`. -/
def descriptorProps (item : Item) (pth : String) : DocProps :=
  { title := pyOrStr item.title (pyOrStr item.Title (basename pth))
    file_name := pyOrStr item.FileName (basename pth)
    mime_type := pyOrStr item.MIMEType (pyOrStr item.mime_type "application/pdf")
    page_count := as_int (pyOrJ item.PageCount (pyOrJ item.pagesF (.i 0))) 0 }

/-- The body of the `for item in items` loop for one entry, below the
limit check: resolve the path, skip silently when it is falsy or not a
file, otherwise extract, chunk, issue the one write query of the taken
branch, and increment `processed`.  Returns the updated counter and the
query log. -/
def processItem (env : Env) (chunk_size chunk_overlap : Nat) (item : Item)
    (processed : Nat) (qs : List Query) : Nat × List Query :=
  match pyOrS item.path item.Path with
  | none => (processed, qs)
  | some pth =>
      if pth = "" then (processed, qs)
      else if env.isFile pth then
        let props := descriptorProps item pth
        let pages := extract_pdf_text_by_page env pth
        let chunks := chunk_pages env.split pages chunk_size chunk_overlap
        if chunks = [] then
          (processed + 1, qs ++ [Query.docOnly pth props])
        else
          (processed + 1,
           qs ++ [Query.docWithChunks pth
             { props with
               page_count := if props.page_count = 0 then (pages.length : Int)
                             else props.page_count }
             chunks])
      else (processed, qs)

/-- The `if limit is not None and processed >= limit: break` guard. -/
def breakCond (limit : Option Int) (processed : Nat) : Bool :=
  match limit with
  | some l => decide (l ≤ (processed : Int))
  | none => false

/-- The `for item in items` loop of `ingest_from_json`: the limit guard
runs at the top of each iteration and `break` leaves the remaining
entries untouched. -/
def ingestLoop (env : Env) (chunk_size chunk_overlap : Nat) (limit : Option Int) :
    List Item → Nat → List Query → Nat × List Query
  | [], processed, qs => (processed, qs)
  | item :: rest, processed, qs =>
      if breakCond limit processed then (processed, qs)
      else
        ingestLoop env chunk_size chunk_overlap limit rest
          (processItem env chunk_size chunk_overlap item processed qs).1
          (processItem env chunk_size chunk_overlap item processed qs).2

/-- The observable outcome of one `ingest_from_json` run: the final
counter, the issued write queries, the resulting store, how many times the
vector-index build was invoked, and the printed summary line. -/
structure RunResult where
  processed : Nat
  queries : List Query
  graph : GraphState
  indexBuilds : Nat
  report : String
deriving Repr

/-- `ingest_from_json` from `src/ingest/ingest_pdfs_to_neo4j.py`, after
the manifest has been loaded (reading and JSON-parsing the manifest file
is I/O at the boundary; `items` is the parsed array).  The loop issues the
write queries in order against the initial store `g0`; afterwards
`Neo4jVector.from_existing_graph` is invoked exactly once and the summary
is printed. -/
def ingest_from_json (env : Env) (g0 : GraphState) (index_name : String)
    (chunk_size chunk_overlap : Nat) (limit : Option Int) (items : List Item) : RunResult :=
  { processed := (ingestLoop env chunk_size chunk_overlap limit items 0 []).1
    queries := (ingestLoop env chunk_size chunk_overlap limit items 0 []).2
    graph := (ingestLoop env chunk_size chunk_overlap limit items 0 []).2.foldl applyQuery g0
    indexBuilds := 1
    report := "Ingestion complete. Processed " ++
      toString (ingestLoop env chunk_size chunk_overlap limit items 0 []).1 ++
      " documents. Vector index: " ++ index_name }

/-! ## Derived notions and concrete instances used by the theorems -/

/-- Every entry of `l` carrying key `k` is exactly `(k, v)`: the store
holds the value `v` (and nothing else) at key `k`. -/
def AllAt {α β : Type} (k : α) (v : β) (l : List (α × β)) : Prop :=
  ∀ e ∈ l, e.1 = k → e = (k, v)

/-- An entry passing the path check: the resolved path is truthy and
names an existing file. -/
def itemValid (env : Env) (item : Item) : Prop :=
  ∃ pth, pyOrS item.path item.Path = some pth ∧ pth ≠ "" ∧ env.isFile pth = true

/-- An entry failing the path check: the resolved path is missing, falsy,
or does not name an existing file. -/
def itemInvalid (env : Env) (item : Item) : Prop :=
  pyOrS item.path item.Path = none ∨ pyOrS item.path item.Path = some "" ∨
    ∃ pth, pyOrS item.path item.Path = some pth ∧ env.isFile pth = false

/-- A manifest entry that supplies only a `path`. -/
def onlyPathItem (pth : String) : Item :=
  ⟨some pth, none, none, none, none, none, none, .null, .null⟩

/-- Concrete environment for C1: `a.pdf` exists and has two pages with no
extractable text. -/
def envC1 : Env :=
  { isFile := fun p => p == "a.pdf"
    readerPages := fun _ => [Except.ok none, Except.ok none]
    split := fun _ _ t => [t] }

/-- Concrete manifest entry for C1: only a path, no metadata. -/
def itemC1 : Item :=
  ⟨some "a.pdf", none, none, none, none, none, none, .null, .null⟩

/-- Concrete environment for the C3 witness: every path is a file with
one non-empty page. -/
def envC3 : Env :=
  { isFile := fun _ => true
    readerPages := fun _ => [Except.ok (some "hello")]
    split := fun _ _ t => [t] }

/-- Concrete manifest entry for the C3 witness. -/
def itemC3 : Item :=
  ⟨some "x.pdf", none, none, none, none, none, none, .null, .null⟩

/-- Concrete environment for the C4 witness: no path is a file. -/
def envC4 : Env :=
  { isFile := fun _ => false
    readerPages := fun _ => []
    split := fun _ _ t => [t] }

/-- Concrete manifest entry for the C4 witness: a path naming a
non-existent file. -/
def itemC4 : Item :=
  ⟨some "nope.pdf", none, none, none, none, none, none, .null, .null⟩

/-- Concrete environment for C5: `b.pdf` exists with two pages of text. -/
def envC5 : Env :=
  { isFile := fun p => p == "b.pdf"
    readerPages := fun _ => [Except.ok (some "hello"), Except.ok (some "world")]
    split := fun _ _ t => [t] }

/-- Concrete environment for the C8 witness: page 2 of 3 throws. -/
def envC8 : Env :=
  { isFile := fun p => p == "c.pdf"
    readerPages := fun _ => [Except.ok (some "hello"), Except.error (), Except.ok none]
    split := fun _ _ t => [t] }

/-- Concrete environment for the C9 witness (a perfectly valid entry that
must nevertheless not be processed). -/
def envC9 : Env :=
  { isFile := fun _ => true
    readerPages := fun _ => [Except.ok (some "hello")]
    split := fun _ _ t => [t] }

/-- Concrete manifest entry for the C9 witness. -/
def itemC9 : Item :=
  ⟨some "y.pdf", none, none, none, none, none, none, .null, .null⟩

/-! ## Lemmas about `chunk_pages` -/

/-- Characterization of membership in the inner split-and-filter loop:
every emitted record keeps the page number `i`, carries the split part at
raw position `idx` (counted from `j`), and a non-blank text. -/
theorem mem_splitFilterAux {i : Nat} {c : ChunkRec} :
    ∀ {parts : List String} {j : Nat}, c ∈ splitFilterAux i j parts →
    ∃ k, parts.get? k = some c.text ∧ c.idx = j + k ∧ c.page = i ∧ isBlank c.text = false := by
  intro parts
  induction parts with
  | nil => intro j h; simp [splitFilterAux] at h
  | cons part rest ih =>
    intro j h
    simp only [splitFilterAux, List.mem_append] at h
    rcases h with h | h
    · cases hb : isBlank part with
      | true => simp [hb] at h
      | false =>
        simp [hb] at h
        subst h
        exact ⟨0, by simp, by simp, rfl, hb⟩
    · rcases ih h with ⟨k, hget, hidx, hpage, hne⟩
      exact ⟨k + 1, by simpa using hget, by omega, hpage, hne⟩

/-- Characterization of membership in the page loop: every emitted record
comes from a page at offset `k` whose text is non-falsy, and its `text` is
the raw splitter output at position `idx`. -/
theorem mem_chunkPagesAux {f : String → List String} {c : ChunkRec} :
    ∀ {pages : List String} {i : Nat}, c ∈ chunkPagesAux f i pages →
    ∃ k t, pages.get? k = some t ∧ t ≠ "" ∧ c.page = i + k ∧
      (f t).get? c.idx = some c.text ∧ isBlank c.text = false := by
  intro pages
  induction pages with
  | nil => intro i h; simp [chunkPagesAux] at h
  | cons t rest ih =>
    intro i h
    simp only [chunkPagesAux, List.mem_append] at h
    rcases h with h | h
    · by_cases ht : t = ""
      · simp [ht] at h
      · simp [ht] at h
        rcases mem_splitFilterAux h with ⟨k, hget, hidx, hpage, hne⟩
        refine ⟨0, t, by simp, ht, by simpa using hpage, ?_, hne⟩
        simpa [hidx] using hget
    · rcases ih h with ⟨k, t', hget, hne', hpage, hsplit, hne⟩
      exact ⟨k + 1, t', by simpa using hget, hne', by omega, hsplit, hne⟩

/-- `idx` values within one run of the inner loop are strictly increasing. -/
theorem pairwise_idx_splitFilterAux {i : Nat} :
    ∀ {parts : List String} {j : Nat},
    List.Pairwise (fun a b : ChunkRec => a.idx < b.idx) (splitFilterAux i j parts) := by
  intro parts
  induction parts with
  | nil => intro j; simp [splitFilterAux]
  | cons part rest ih =>
    intro j
    simp only [splitFilterAux]
    rw [List.pairwise_append]
    refine ⟨?_, ih, ?_⟩
    · cases hb : isBlank part <;> simp [hb]
    · intro a ha b hb
      cases hbl : isBlank part with
      | true => simp [hbl] at ha
      | false =>
        simp [hbl] at ha
        rcases mem_splitFilterAux hb with ⟨k, _, hidx, _, _⟩
        subst ha
        simp only [hidx]
        omega

/-- The full output of the page loop is strictly sorted in the
lexicographic `(page, idx)` order. -/
theorem pairwise_lex_chunkPagesAux {f : String → List String} :
    ∀ {pages : List String} {i : Nat},
    List.Pairwise
      (fun a b : ChunkRec => a.page < b.page ∨ (a.page = b.page ∧ a.idx < b.idx))
      (chunkPagesAux f i pages) := by
  intro pages
  induction pages with
  | nil => intro i; simp [chunkPagesAux]
  | cons t rest ih =>
    intro i
    simp only [chunkPagesAux]
    rw [List.pairwise_append]
    refine ⟨?_, ih, ?_⟩
    · by_cases ht : t = ""
      · simp [ht]
      · simp only [ht, if_neg, ite_false]
        refine List.Pairwise.imp_of_mem ?_ (pairwise_idx_splitFilterAux (j := 0))
        intro a b ha hb hidx
        rcases mem_splitFilterAux ha with ⟨_, _, _, hpa, _⟩
        rcases mem_splitFilterAux hb with ⟨_, _, _, hpb, _⟩
        exact Or.inr ⟨hpa.trans hpb.symm, hidx⟩
    · intro a ha b hb
      have hpb : ∃ k t', rest.get? k = some t' ∧ t' ≠ "" ∧ b.page = (i + 1) + k ∧
          (f t').get? b.idx = some b.text ∧ isBlank b.text = false := mem_chunkPagesAux hb
      rcases hpb with ⟨k, _, _, _, hpageb, _, _⟩
      by_cases ht : t = ""
      · simp [ht] at ha
      · simp only [ht, if_neg, ite_false] at ha
        rcases mem_splitFilterAux ha with ⟨_, _, _, hpa, _⟩
        left
        omega

/-- C6 helper: membership in `chunk_pages` in terms of the original page
list and the raw splitter output. -/
theorem mem_chunk_pages {splitter : Nat → Nat → String → List String}
    {pages : List String} {csz co : Nat} {c : ChunkRec}
    (hc : c ∈ chunk_pages splitter pages csz co) :
    ∃ t, pages.get? (c.page - 1) = some t ∧ t ≠ "" ∧
      (splitter csz co t).get? c.idx = some c.text ∧ isBlank c.text = false ∧ 1 ≤ c.page := by
  rcases mem_chunkPagesAux hc with ⟨k, t, hget, hne, hpage, hsplit, hblank⟩
  have hk : c.page - 1 = k := by omega
  exact ⟨t, by rwa [hk], hne, hsplit, hblank, by omega⟩

/-! ## Lemmas about the store operations -/

section Store

variable {α β : Type} [DecidableEq α]

theorem hasKey_upsertList_self (k : α) (v : β) (l : List (α × β)) :
    hasKey k (upsertList k v l) = true := by
  unfold upsertList
  by_cases h : hasKey k l
  · rw [if_pos h]
    unfold hasKey at h ⊢
    rw [List.any_eq_true] at h ⊢
    rcases h with ⟨x, hx, hk⟩
    refine ⟨(k, v), List.mem_map.mpr ⟨x, hx, ?_⟩, by simp⟩
    simp only [decide_eq_true_eq] at hk
    simp [hk]
  · rw [if_neg h]
    unfold hasKey
    rw [List.any_eq_true]
    exact ⟨(k, v), List.mem_append_right _ (by simp), by simp⟩

theorem hasKey_upsertList_mono (k k' : α) (v' : β) (l : List (α × β))
    (h : hasKey k l = true) : hasKey k (upsertList k' v' l) = true := by
  rw [hasKey, List.any_eq_true] at h
  rcases h with ⟨x, hx, hk⟩
  simp only [decide_eq_true_eq] at hk
  unfold upsertList
  by_cases h' : hasKey k' l
  · rw [if_pos h', hasKey, List.any_eq_true]
    by_cases hxk : x.1 = k'
    · exact ⟨(k', v'), List.mem_map.mpr ⟨x, hx, by simp [hxk]⟩, by simp [← hk, hxk]⟩
    · exact ⟨x, List.mem_map.mpr ⟨x, hx, by simp [hxk]⟩, by simp [hk]⟩
  · rw [if_neg h', hasKey, List.any_eq_true]
    exact ⟨x, List.mem_append_left _ hx, by simp [hk]⟩

theorem allAt_upsertList_self (k : α) (v : β) (l : List (α × β)) :
    AllAt k v (upsertList k v l) := by
  intro e he hk
  unfold upsertList at he
  by_cases h : hasKey k l
  · rw [if_pos h] at he
    rcases List.mem_map.mp he with ⟨x, _, hfx⟩
    by_cases hxk : x.1 = k
    · simpa [hxk] using hfx.symm
    · rw [if_neg hxk] at hfx
      exact absurd (hfx ▸ hk) hxk
  · rw [if_neg h] at he
    rcases List.mem_append.mp he with he | he
    · exfalso
      unfold hasKey at h
      rw [Bool.not_eq_true, List.any_eq_false] at h
      exact absurd (by simpa using hk) (by simpa using h e he)
    · simpa using he

theorem allAt_upsertList_other (k k' : α) (v v' : β) (l : List (α × β))
    (hkk : k' ≠ k) (h : AllAt k v l) : AllAt k v (upsertList k' v' l) := by
  intro e he hk
  unfold upsertList at he
  by_cases hh : hasKey k' l
  · rw [if_pos hh] at he
    rcases List.mem_map.mp he with ⟨x, hx, hfx⟩
    by_cases hxk : x.1 = k'
    · rw [if_pos hxk] at hfx
      rw [← hfx] at hk
      exact absurd hk hkk
    · rw [if_neg hxk] at hfx
      exact h e (hfx ▸ hx) hk
  · rw [if_neg hh] at he
    rcases List.mem_append.mp he with he | he
    · exact h e he hk
    · simp only [List.mem_singleton] at he
      rw [he] at hk
      exact absurd hk hkk

theorem upsertList_eq_of_allAt (k : α) (v : β) (l : List (α × β))
    (hmem : hasKey k l = true) (hall : AllAt k v l) : upsertList k v l = l := by
  unfold upsertList
  rw [if_pos hmem]
  have : ∀ e ∈ l, (if e.1 = k then (k, v) else e) = e := by
    intro e he
    by_cases hk : e.1 = k
    · rw [if_pos hk, (hall e he hk)]
    · rw [if_neg hk]
  calc l.map (fun e => if e.1 = k then (k, v) else e)
      = l.map id := List.map_congr_left this
    _ = l := List.map_id l

theorem upsertList_idem (k : α) (v : β) (l : List (α × β)) :
    upsertList k v (upsertList k v l) = upsertList k v l :=
  upsertList_eq_of_allAt k v _ (hasKey_upsertList_self k v l) (allAt_upsertList_self k v l)

end Store

section Insert

variable {γ : Type} [DecidableEq γ]

theorem mem_insertIfAbsent_self (r : γ) (l : List γ) : r ∈ insertIfAbsent r l := by
  unfold insertIfAbsent
  by_cases h : r ∈ l
  · rwa [if_pos h]
  · rw [if_neg h]
    exact List.mem_append_right _ (by simp)

theorem mem_insertIfAbsent_mono (r x : γ) (l : List γ) (h : x ∈ l) :
    x ∈ insertIfAbsent r l := by
  unfold insertIfAbsent
  by_cases hr : r ∈ l
  · rwa [if_pos hr]
  · rw [if_neg hr]
    exact List.mem_append_left _ h

theorem insertIfAbsent_eq_of_mem (r : γ) (l : List γ) (h : r ∈ l) :
    insertIfAbsent r l = l := by
  unfold insertIfAbsent
  rw [if_pos h]

end Insert

/-! ## Lemmas about `applyChunks` -/

theorem applyChunks_docs (path : String) :
    ∀ (cs : List ChunkRec) (g : GraphState), (applyChunks path g cs).docs = g.docs := by
  intro cs
  induction cs with
  | nil => intro g; rfl
  | cons c rest ih => intro g; exact ih (mergeChunk path g c)

/-- The combined document-plus-chunks query touches the document list
only through the initial `MERGE (d:Document {path}) SET ...`. -/
theorem docs_applyQuery_docWithChunks (g : GraphState) (path : String)
    (props : DocProps) (cs : List ChunkRec) :
    (applyQuery g (Query.docWithChunks path props cs)).docs =
      upsertList path props g.docs := by
  show (applyChunks path { g with docs := upsertList path props g.docs } cs).docs = _
  rw [applyChunks_docs]

theorem applyChunks_hasKey (path : String) :
    ∀ (cs : List ChunkRec) (g : GraphState) (k : ChunkKey),
    hasKey k g.chunks = true → hasKey k (applyChunks path g cs).chunks = true := by
  intro cs
  induction cs with
  | nil => intro g k h; exact h
  | cons c rest ih =>
    intro g k h
    exact ih (mergeChunk path g c) k (hasKey_upsertList_mono k (chunkKey path c) c.text _ h)

theorem applyChunks_relMem (path : String) :
    ∀ (cs : List ChunkRec) (g : GraphState) (r : String × ChunkKey),
    r ∈ g.rels → r ∈ (applyChunks path g cs).rels := by
  intro cs
  induction cs with
  | nil => intro g r h; exact h
  | cons c rest ih =>
    intro g r h
    exact ih (mergeChunk path g c) r (mem_insertIfAbsent_mono _ r _ h)

theorem applyChunks_allAt (path : String) :
    ∀ (cs : List ChunkRec) (g : GraphState) (k : ChunkKey) (v : String),
    (∀ c ∈ cs, chunkKey path c ≠ k) → AllAt k v g.chunks →
    AllAt k v (applyChunks path g cs).chunks := by
  intro cs
  induction cs with
  | nil => intro g k v _ h; exact h
  | cons c rest ih =>
    intro g k v hks h
    refine ih (mergeChunk path g c) k v (fun c' hc' => hks c' (List.mem_cons_of_mem c hc')) ?_
    exact allAt_upsertList_other k (chunkKey path c) v c.text _
      (hks c (List.mem_cons_self c rest)) h

/-- After one pass of the `UNWIND` loop over a batch with pairwise
distinct merge keys, every chunk of the batch is settled in the store:
its key is present, every entry at its key holds its text, and its
`HAS_CHUNK` relationship exists. -/
theorem applyChunks_settled (path : String) :
    ∀ (cs : List ChunkRec) (g : GraphState),
    ((cs.map (chunkKey path)).Nodup) → ∀ c ∈ cs,
    hasKey (chunkKey path c) (applyChunks path g cs).chunks = true ∧
    AllAt (chunkKey path c) c.text (applyChunks path g cs).chunks ∧
    (path, chunkKey path c) ∈ (applyChunks path g cs).rels := by
  intro cs
  induction cs with
  | nil => intro g _ c hc; simp at hc
  | cons c0 rest ih =>
    intro g hnd c hc
    rw [List.map_cons, List.nodup_cons] at hnd
    rcases hnd with ⟨hnotin, hnd⟩
    rcases List.mem_cons.mp hc with rfl | hc
    · refine ⟨?_, ?_, ?_⟩
      · exact applyChunks_hasKey path rest _ _
          (hasKey_upsertList_self (chunkKey path c) c.text g.chunks)
      · refine applyChunks_allAt path rest _ _ _ ?_
          (allAt_upsertList_self (chunkKey path c) c.text g.chunks)
        intro c' hc' heq
        exact hnotin (heq ▸ List.mem_map_of_mem (chunkKey path) hc')
      · exact applyChunks_relMem path rest _ _
          (mem_insertIfAbsent_self (path, chunkKey path c) g.rels)
    · exact ih (mergeChunk path g c0) hnd c hc

/-- A single `UNWIND` round is the identity on a store where the chunk is
already settled. -/
theorem mergeChunk_eq_of_settled (path : String) (g : GraphState) (c : ChunkRec)
    (hk : hasKey (chunkKey path c) g.chunks = true)
    (ha : AllAt (chunkKey path c) c.text g.chunks)
    (hr : (path, chunkKey path c) ∈ g.rels) : mergeChunk path g c = g := by
  unfold mergeChunk
  rw [upsertList_eq_of_allAt _ _ _ hk ha, insertIfAbsent_eq_of_mem _ _ hr]

/-- Folding a step which fixes the state is the identity. -/
theorem foldl_fixed {σ χ : Type} {step : σ → χ → σ} {s : σ} :
    ∀ {cs : List χ}, (∀ c ∈ cs, step s c = s) → cs.foldl step s = s := by
  intro cs
  induction cs with
  | nil => intro _; rfl
  | cons c rest ih =>
    intro h
    rw [List.foldl_cons, h c (List.mem_cons_self c rest)]
    exact ih (fun c' hc' => h c' (List.mem_cons_of_mem c hc'))

/-- The chunk batches the pipeline produces have pairwise distinct merge
keys: `(page, idx)` pairs are strictly ordered across the output of
`chunk_pages`. -/
theorem nodup_chunkKeys (path : String) (splitter : Nat → Nat → String → List String)
    (pages : List String) (csz co : Nat) :
    ((chunk_pages splitter pages csz co).map (chunkKey path)).Nodup := by
  have hp : (chunk_pages splitter pages csz co).Pairwise
      (fun a b => chunkKey path a ≠ chunkKey path b) := by
    refine List.Pairwise.imp ?_ pairwise_lex_chunkPagesAux
    intro a b hlex heq
    unfold chunkKey at heq
    have h1 : a.page = b.page := congrArg (fun p : ChunkKey => p.2.1) heq
    have h2 : a.idx = b.idx := congrArg (fun p : ChunkKey => p.2.2) heq
    rcases hlex with h | ⟨_, h⟩
    · omega
    · omega
  exact List.pairwise_map.mpr hp

/-! ## Claim theorems about the chunker -/

/-- C6: every chunk emitted by `chunk_pages` carries `idx` equal to its
0-based position in the splitter's raw output for its page (before the
whitespace-only filter, so discarded blank splits still consume their
slot and retained chunks are never renumbered), and consequently the
`(page, idx)` pair determines the chunk text: two chunks of the same run
agreeing on `page` and `idx` carry the same text. -/
theorem C6_idx_is_raw_split_position
    (splitter : Nat → Nat → String → List String) (pages : List String)
    (csz co : Nat) (c : ChunkRec)
    (hc : c ∈ chunk_pages splitter pages csz co) :
    (∃ t, pages.get? (c.page - 1) = some t ∧ t ≠ "" ∧
      (splitter csz co t).get? c.idx = some c.text) ∧
    ∀ c' ∈ chunk_pages splitter pages csz co,
      c'.page = c.page → c'.idx = c.idx → c'.text = c.text := by
  rcases mem_chunk_pages hc with ⟨t, hget, hne, hsplit, _, _⟩
  refine ⟨⟨t, hget, hne, hsplit⟩, ?_⟩
  intro c' hc' hpage hidx
  rcases mem_chunk_pages hc' with ⟨t', hget', _, hsplit', _, _⟩
  rw [hpage, hget] at hget'
  cases hget'
  rw [hidx, hsplit] at hsplit'
  exact (Option.some_injective _ hsplit').symm

/-- C6 witness: a concrete run where the sole surviving chunk sits at raw
split position 0 of page 1. -/
theorem C6_idx_is_raw_split_position_witness :
    ((⟨1, 0, "hi"⟩ : ChunkRec) ∈ chunk_pages (fun _ _ t => [t]) ["hi"] 1000 200) ∧
    ((∃ t, ["hi"].get? ((1 : Nat) - 1) = some t ∧ t ≠ "" ∧
      ((fun (_ _ : Nat) (t : String) => [t]) 1000 200 t).get? 0 = some "hi") ∧
    ∀ c' ∈ chunk_pages (fun _ _ t => [t]) ["hi"] 1000 200,
      c'.page = 1 → c'.idx = 0 → c'.text = "hi") :=
  ⟨by decide,
   C6_idx_is_raw_split_position (fun _ _ t => [t]) ["hi"] 1000 200 ⟨1, 0, "hi"⟩ (by decide)⟩

/-- C7: every chunk record returned by `chunk_pages` has non-empty,
non-whitespace-only text, and a page whose text is empty contributes no
chunk record (no chunk carries its 1-based page number). -/
theorem C7_no_blank_chunk_text
    (splitter : Nat → Nat → String → List String) (pages : List String)
    (csz co : Nat) (c : ChunkRec)
    (hc : c ∈ chunk_pages splitter pages csz co) :
    isBlank c.text = false ∧ c.text ≠ "" ∧ ∀ k, pages.get? k = some "" → c.page ≠ k + 1 := by
  rcases mem_chunk_pages hc with ⟨t, hget, hne, _, hblank, hpage⟩
  refine ⟨hblank, ?_, ?_⟩
  · intro h0
    rw [h0] at hblank
    exact absurd hblank (by decide)
  · intro k hk hcontra
    have hk' : c.page - 1 = k := by omega
    rw [hk', hk] at hget
    exact hne (Option.some_injective _ hget.symm)

/-- C7 witness: a concrete run with one empty page and one real page; the
surviving chunk is non-blank and no chunk sits on the empty page. -/
theorem C7_no_blank_chunk_text_witness :
    ((⟨2, 0, "hi"⟩ : ChunkRec) ∈ chunk_pages (fun _ _ t => [t]) ["", "hi"] 1000 200) ∧
    (isBlank (⟨2, 0, "hi"⟩ : ChunkRec).text = false ∧ (⟨2, 0, "hi"⟩ : ChunkRec).text ≠ "" ∧
      ∀ k, ["", "hi"].get? k = some "" → (⟨2, 0, "hi"⟩ : ChunkRec).page ≠ k + 1) :=
  ⟨by decide,
   C7_no_blank_chunk_text (fun _ _ t => [t]) ["", "hi"] 1000 200 ⟨2, 0, "hi"⟩ (by decide)⟩

/-- C10: the sequence returned by `chunk_pages` is strictly sorted in the
lexicographic `(page, idx)` order — so page numbers are nondecreasing
across the output and `idx` is strictly increasing within a page — and
every chunk has `page ≥ 1` and `idx ≥ 0`. -/
theorem C10_output_ordered
    (splitter : Nat → Nat → String → List String) (pages : List String) (csz co : Nat) :
    List.Pairwise
      (fun a b : ChunkRec => a.page < b.page ∨ (a.page = b.page ∧ a.idx < b.idx))
      (chunk_pages splitter pages csz co) ∧
    ∀ c ∈ chunk_pages splitter pages csz co, 1 ≤ c.page ∧ 0 ≤ c.idx := by
  refine ⟨pairwise_lex_chunkPagesAux, ?_⟩
  intro c hc
  rcases mem_chunk_pages hc with ⟨_, _, _, _, _, h1⟩
  exact ⟨h1, Nat.zero_le _⟩

/-- C10 witness: the ordering invariant evaluated on a concrete
two-page input. -/
theorem C10_output_ordered_witness :
    List.Pairwise
      (fun a b : ChunkRec => a.page < b.page ∨ (a.page = b.page ∧ a.idx < b.idx))
      (chunk_pages (fun _ _ t => [t]) ["aa", "bb"] 1000 200) ∧
    ∀ c ∈ chunk_pages (fun _ _ t => [t]) ["aa", "bb"] 1000 200,
      1 ≤ c.page ∧ 0 ≤ c.idx :=
  C10_output_ordered (fun _ _ t => [t]) ["aa", "bb"] 1000 200

/-! ## Claim theorem about the upsert -/

/-- C2: running the combined document-plus-chunks upsert twice with
identical inputs (any non-empty chunk batch the pipeline produces) leaves
the graph store in exactly the state of running it once — the Document is
merged by the unique key `path`, each Chunk by the composite key
`(doc_path, page, idx)`, so re-ingestion creates no duplicate records. -/
theorem C2_reingest_idempotent
    (splitter : Nat → Nat → String → List String) (pages : List String)
    (csz co : Nat) (path : String) (props : DocProps) (g : GraphState)
    (hne : chunk_pages splitter pages csz co ≠ []) :
    applyQuery
      (applyQuery g (Query.docWithChunks path props (chunk_pages splitter pages csz co)))
      (Query.docWithChunks path props (chunk_pages splitter pages csz co)) =
    applyQuery g (Query.docWithChunks path props (chunk_pages splitter pages csz co)) := by
  set cs := chunk_pages splitter pages csz co with hcs
  have hnd : (cs.map (chunkKey path)).Nodup := by
    rw [hcs]
    exact nodup_chunkKeys path splitter pages csz co
  have hsettle : ∀ c ∈ cs,
      mergeChunk path (applyChunks path { g with docs := upsertList path props g.docs } cs) c
        = applyChunks path { g with docs := upsertList path props g.docs } cs := by
    intro c hc
    rcases applyChunks_settled path cs { g with docs := upsertList path props g.docs }
      hnd c hc with ⟨h1, h2, h3⟩
    exact mergeChunk_eq_of_settled path _ c h1 h2 h3
  have hmain : ∀ A1 : GraphState, A1.docs = upsertList path props g.docs →
      (∀ c ∈ cs, mergeChunk path A1 c = A1) →
      applyChunks path { A1 with docs := upsertList path props A1.docs } cs = A1 := by
    intro A1 hdocs hset
    rw [hdocs, upsertList_idem, ← hdocs]
    exact foldl_fixed hset
  exact hmain (applyChunks path { g with docs := upsertList path props g.docs } cs)
    (applyChunks_docs path cs _) hsettle

/-- C2 witness: a concrete double ingestion of a one-chunk batch. -/
theorem C2_reingest_idempotent_witness :
    (chunk_pages (fun _ _ t => [t]) ["hi"] 1000 200 ≠ []) ∧
    (applyQuery
      (applyQuery emptyGraph
        (Query.docWithChunks "a.pdf" ⟨"t", "f", 1, "m"⟩
          (chunk_pages (fun _ _ t => [t]) ["hi"] 1000 200)))
      (Query.docWithChunks "a.pdf" ⟨"t", "f", 1, "m"⟩
        (chunk_pages (fun _ _ t => [t]) ["hi"] 1000 200)) =
    applyQuery emptyGraph
      (Query.docWithChunks "a.pdf" ⟨"t", "f", 1, "m"⟩
        (chunk_pages (fun _ _ t => [t]) ["hi"] 1000 200))) :=
  ⟨by decide,
   C2_reingest_idempotent (fun _ _ t => [t]) ["hi"] 1000 200 "a.pdf"
     ⟨"t", "f", 1, "m"⟩ emptyGraph (by decide)⟩

/-! ## Lemmas about the ingest loop -/

theorem processItem_of_invalid (env : Env) (csz co : Nat) (item : Item)
    (p : Nat) (qs : List Query) (h : itemInvalid env item) :
    processItem env csz co item p qs = (p, qs) := by
  unfold processItem
  rcases h with h | h | ⟨pth, h, hf⟩
  · rw [h]
  · rw [h]
    simp
  · rw [h]
    by_cases he : pth = ""
    · simp [he]
    · simp [he, hf]

theorem processItem_fst_of_valid (env : Env) (csz co : Nat) (item : Item)
    (p : Nat) (qs : List Query) (hv : itemValid env item) :
    (processItem env csz co item p qs).1 = p + 1 := by
  rcases hv with ⟨pth, hpy, hpne, hf⟩
  unfold processItem
  rw [hpy]
  simp only [hpne, hf, ite_false, ite_true, if_neg, if_pos]
  split <;> rfl

/-- The effect of one iteration on a valid entry: `processed` is
incremented and exactly one write query for the resolved path is
appended, carrying the descriptor metadata (with the `page_count`
fallback in the chunked branch). -/
theorem processItem_of_valid (env : Env) (csz co : Nat) (item : Item)
    (p : Nat) (qs : List Query) (pth : String)
    (hpy : pyOrS item.path item.Path = some pth) (hpne : pth ≠ "")
    (hf : env.isFile pth = true) :
    processItem env csz co item p qs =
      (if chunk_pages env.split (extract_pdf_text_by_page env pth) csz co = [] then
        (p + 1, qs ++ [Query.docOnly pth (descriptorProps item pth)])
      else
        (p + 1, qs ++ [Query.docWithChunks pth
          { descriptorProps item pth with
            page_count := if (descriptorProps item pth).page_count = 0 then
                ((extract_pdf_text_by_page env pth).length : Int)
              else (descriptorProps item pth).page_count }
          (chunk_pages env.split (extract_pdf_text_by_page env pth) csz co)])) := by
  unfold processItem
  rw [hpy]
  simp only [hpne, hf, ite_false, ite_true, if_neg, if_pos]

theorem ingestLoop_nil (env : Env) (csz co : Nat) (limit : Option Int)
    (p : Nat) (qs : List Query) : ingestLoop env csz co limit [] p qs = (p, qs) := rfl

theorem ingestLoop_cons_break (env : Env) (csz co : Nat) (limit : Option Int)
    (item : Item) (rest : List Item) (p : Nat) (qs : List Query)
    (h : breakCond limit p = true) :
    ingestLoop env csz co limit (item :: rest) p qs = (p, qs) := by
  rw [ingestLoop, if_pos h]

theorem ingestLoop_cons_go (env : Env) (csz co : Nat) (limit : Option Int)
    (item : Item) (rest : List Item) (p : Nat) (qs : List Query)
    (h : breakCond limit p = false) :
    ingestLoop env csz co limit (item :: rest) p qs =
      ingestLoop env csz co limit rest
        (processItem env csz co item p qs).1 (processItem env csz co item p qs).2 := by
  rw [ingestLoop, if_neg (by rw [h]; exact Bool.false_ne_true)]

theorem breakCond_some (l : Int) (p : Nat) :
    breakCond (some l) p = decide (l ≤ (p : Int)) := rfl

theorem breakCond_none (p : Nat) : breakCond none p = false := rfl

/-- Counting helper: over a prefix of valid entries, the loop counter
grows by one per entry until it hits the limit. -/
theorem ingestLoop_count_of_valid (env : Env) (csz co : Nat) (l : Int) :
    ∀ (items : List Item) (p : Nat) (qs : List Query),
    (∀ it ∈ items, itemValid env it) → (p : Int) ≤ l →
    ((ingestLoop env csz co (some l) items p qs).1 : Int) =
      min l ((p : Int) + items.length) := by
  intro items
  induction items with
  | nil =>
    intro p qs _ hpl
    rw [ingestLoop_nil]
    simp only [List.length_nil, Nat.cast_zero, add_zero]
    omega
  | cons it rest ih =>
    intro p qs hval hpl
    by_cases hc : l ≤ (p : Int)
    · rw [ingestLoop_cons_break env csz co (some l) it rest p qs
        (by rw [breakCond_some]; exact decide_eq_true hc)]
      simp only [List.length_cons]
      push_cast
      omega
    · rw [ingestLoop_cons_go env csz co (some l) it rest p qs
        (by rw [breakCond_some]; exact decide_eq_false hc)]
      rw [processItem_fst_of_valid env csz co it p qs (hval it (List.mem_cons_self it rest))]
      rw [ih (p + 1) (processItem env csz co it p qs).2
        (fun it' hit' => hval it' (List.mem_cons_of_mem it hit')) (by push_cast; omega)]
      simp only [List.length_cons]
      push_cast
      omega

/-! ## Claim theorems about the ingest loop -/

/-- C3: the loop checks the limit before touching an entry; once the
counter has reached the limit it stops, and the result (counter, queries)
is independent of whatever entries remain; over valid entries the counter
is the minimum of the limit and the number of entries, so 5 valid entries
with limit 2 give exactly 2 processed. -/
theorem C3_limit_early_exit (env : Env) (csz co : Nat) (l : Int)
    (items : List Item) (p : Nat) (qs : List Query) :
    (l ≤ (p : Int) → ingestLoop env csz co (some l) items p qs = (p, qs)) ∧
    ((∀ it ∈ items, itemValid env it) → (p : Int) ≤ l →
      ((ingestLoop env csz co (some l) items p qs).1 : Int) =
        min l ((p : Int) + items.length)) ∧
    ((∀ it ∈ items, itemValid env it) → items.length = 5 → l = 2 →
      (ingestLoop env csz co (some l) items 0 qs).1 = 2) := by
  refine ⟨?_, ?_, ?_⟩
  · intro hstop
    cases items with
    | nil => rfl
    | cons it rest =>
      exact ingestLoop_cons_break env csz co (some l) it rest p qs
        (by rw [breakCond_some]; exact decide_eq_true hstop)
  · intro hval hpl
    exact ingestLoop_count_of_valid env csz co l items p qs hval hpl
  · intro hval hlen hl
    subst hl
    have h := ingestLoop_count_of_valid env csz co 2 items 0 qs hval (by norm_num)
    rw [hlen] at h
    norm_num at h
    exact_mod_cast h

/-- C3 witness: 5 valid entries and limit 2 give exactly 2 processed. -/
theorem C3_limit_early_exit_witness :
    (ingestLoop envC3 1000 200 (some 2) [itemC3, itemC3, itemC3, itemC3, itemC3] 0 []).1 = 2 := by
  have h := C3_limit_early_exit envC3 1000 200 2 [itemC3, itemC3, itemC3, itemC3, itemC3] 0 []
  refine h.2.2 ?_ rfl rfl
  intro it hit
  have : it = itemC3 := by
    simp only [List.mem_cons, List.not_mem_nil, or_false] at hit
    rcases hit with h | h | h | h | h <;> exact h
  rw [this]
  exact ⟨"x.pdf", by decide, by decide, rfl⟩

/-- C4: an entry whose resolved path is missing, falsy, or not an
existing file is skipped silently: the iteration leaves counter and query
log unchanged and the loop continues with the remaining entries. -/
theorem C4_skip_invalid_entry (env : Env) (csz co : Nat) (limit : Option Int)
    (item : Item) (rest : List Item) (p : Nat) (qs : List Query)
    (hinv : itemInvalid env item) (hbc : breakCond limit p = false) :
    processItem env csz co item p qs = (p, qs) ∧
    ingestLoop env csz co limit (item :: rest) p qs =
      ingestLoop env csz co limit rest p qs := by
  have hp := processItem_of_invalid env csz co item p qs hinv
  refine ⟨hp, ?_⟩
  rw [ingestLoop_cons_go env csz co limit item rest p qs hbc, hp]

/-- C4 witness: the invalid entry contributes nothing and the loop
equals the loop on the remaining entries. -/
theorem C4_skip_invalid_entry_witness :
    itemInvalid envC4 itemC4 ∧ breakCond none 0 = false ∧
    (processItem envC4 1000 200 itemC4 0 [] = (0, []) ∧
     ingestLoop envC4 1000 200 none [itemC4] 0 [] =
       ingestLoop envC4 1000 200 none [] 0 []) := by
  have hinv : itemInvalid envC4 itemC4 :=
    Or.inr (Or.inr ⟨"nope.pdf", by decide, rfl⟩)
  exact ⟨hinv, rfl, C4_skip_invalid_entry envC4 1000 200 none itemC4 [] 0 [] hinv rfl⟩

/-- C9: with a non-positive limit the run processes zero entries and
issues no write (the store is untouched), yet still invokes the vector
index build once and reports a processed count of 0. -/
theorem C9_nonpositive_limit (env : Env) (g0 : GraphState) (idxName : String)
    (csz co : Nat) (l : Int) (items : List Item) (hl : l ≤ 0) :
    (ingest_from_json env g0 idxName csz co (some l) items).processed = 0 ∧
    (ingest_from_json env g0 idxName csz co (some l) items).queries = [] ∧
    (ingest_from_json env g0 idxName csz co (some l) items).graph = g0 ∧
    (ingest_from_json env g0 idxName csz co (some l) items).indexBuilds = 1 ∧
    (ingest_from_json env g0 idxName csz co (some l) items).report =
      "Ingestion complete. Processed 0 documents. Vector index: " ++ idxName := by
  have hloop : ingestLoop env csz co (some l) items 0 [] = (0, []) := by
    cases items with
    | nil => rfl
    | cons it rest =>
      refine ingestLoop_cons_break env csz co (some l) it rest 0 [] ?_
      rw [breakCond_some]
      exact decide_eq_true (by exact_mod_cast hl)
  refine ⟨?_, ?_, ?_, rfl, ?_⟩
  · show (ingestLoop env csz co (some l) items 0 []).1 = 0
    rw [hloop]
  · show (ingestLoop env csz co (some l) items 0 []).2 = []
    rw [hloop]
  · show ((ingestLoop env csz co (some l) items 0 []).2).foldl applyQuery g0 = g0
    rw [hloop]
    rfl
  · show "Ingestion complete. Processed " ++
        toString (ingestLoop env csz co (some l) items 0 []).1 ++
        " documents. Vector index: " ++ idxName = _
    rw [hloop]
    rfl

/-- C9 witness: limit 0 on a one-valid-entry manifest. -/
theorem C9_nonpositive_limit_witness :
    ((0 : Int) ≤ 0) ∧
    ((ingest_from_json envC9 emptyGraph "pdf_chunks" 1000 200 (some 0) [itemC9]).processed = 0 ∧
     (ingest_from_json envC9 emptyGraph "pdf_chunks" 1000 200 (some 0) [itemC9]).queries = [] ∧
     (ingest_from_json envC9 emptyGraph "pdf_chunks" 1000 200 (some 0) [itemC9]).graph = emptyGraph ∧
     (ingest_from_json envC9 emptyGraph "pdf_chunks" 1000 200 (some 0) [itemC9]).indexBuilds = 1 ∧
     (ingest_from_json envC9 emptyGraph "pdf_chunks" 1000 200 (some 0) [itemC9]).report =
       "Ingestion complete. Processed 0 documents. Vector index: " ++ "pdf_chunks") :=
  ⟨by decide,
   C9_nonpositive_limit envC9 emptyGraph "pdf_chunks" 1000 200 0 [itemC9] (by decide)⟩

/-! ## Claim theorem about the page extractor -/

/-- C8: when the file exists, the extractor returns exactly one string
per reader page; a page whose extraction throws contributes `""`, and
every other page contributes its own recovered text — a single failing
page never aborts the document. -/
theorem C8_per_page_error_recovery (env : Env) (path : String) (i : Nat)
    (hf : env.isFile path = true) :
    (extract_pdf_text_by_page env path).length = (env.readerPages path).length ∧
    ((env.readerPages path).get? i = some (Except.error ()) →
      (extract_pdf_text_by_page env path).get? i = some "") ∧
    (∀ j, (extract_pdf_text_by_page env path).get? j =
      ((env.readerPages path).get? j).map pageText) := by
  unfold extract_pdf_text_by_page
  rw [if_pos hf]
  refine ⟨List.length_map _ _, ?_, ?_⟩
  · intro h
    rw [List.get?_map, h]
    rfl
  · intro j
    exact List.get?_map pageText (env.readerPages path) j

/-- C8 witness: the 3-page document with a throwing middle page still
yields 3 entries and `""` for the failing page. -/
theorem C8_per_page_error_recovery_witness :
    (envC8.isFile "c.pdf" = true) ∧
    ((extract_pdf_text_by_page envC8 "c.pdf").length = (envC8.readerPages "c.pdf").length ∧
     ((envC8.readerPages "c.pdf").get? 1 = some (Except.error ()) →
       (extract_pdf_text_by_page envC8 "c.pdf").get? 1 = some "") ∧
     (∀ j, (extract_pdf_text_by_page envC8 "c.pdf").get? j =
       ((envC8.readerPages "c.pdf").get? j).map pageText)) :=
  ⟨rfl, C8_per_page_error_recovery envC8 "c.pdf" 1 rfl⟩

/-! ## Claim theorems about document registration and metadata -/

/-- C1 (amended): a readable manifest entry whose extraction yields zero
chunks is still registered: the run issues the document-only write, the
final store holds a Document record for the path, no Chunk record is
touched — but the stored `page_count` is the descriptor's parsed value
(`_as_int(PageCount or pages or 0)`, so 0 when absent), not the extracted
page count. -/
theorem C1_empty_doc_registration (env : Env) (csz co : Nat) (idxName : String)
    (g0 : GraphState) (item : Item) (pth : String)
    (hpy : pyOrS item.path item.Path = some pth) (hpne : pth ≠ "")
    (hf : env.isFile pth = true)
    (hchunks : chunk_pages env.split (extract_pdf_text_by_page env pth) csz co = []) :
    (ingest_from_json env g0 idxName csz co none [item]).processed = 1 ∧
    (ingest_from_json env g0 idxName csz co none [item]).queries =
      [Query.docOnly pth (descriptorProps item pth)] ∧
    hasKey pth (ingest_from_json env g0 idxName csz co none [item]).graph.docs = true ∧
    AllAt pth (descriptorProps item pth)
      (ingest_from_json env g0 idxName csz co none [item]).graph.docs ∧
    (ingest_from_json env g0 idxName csz co none [item]).graph.chunks = g0.chunks ∧
    (descriptorProps item pth).page_count =
      as_int (pyOrJ item.PageCount (pyOrJ item.pagesF (JVal.i 0))) 0 := by
  have hpi : processItem env csz co item 0 [] =
      (1, [Query.docOnly pth (descriptorProps item pth)]) := by
    rw [processItem_of_valid env csz co item 0 [] pth hpy hpne hf, if_pos hchunks]
    rfl
  have hloop : ingestLoop env csz co none [item] 0 [] =
      (1, [Query.docOnly pth (descriptorProps item pth)]) := by
    rw [ingestLoop_cons_go env csz co none item [] 0 [] rfl, hpi]
    rfl
  refine ⟨?_, ?_, ?_, ?_, ?_, rfl⟩
  · show (ingestLoop env csz co none [item] 0 []).1 = 1
    rw [hloop]
  · show (ingestLoop env csz co none [item] 0 []).2 = _
    rw [hloop]
  · show hasKey pth ((ingestLoop env csz co none [item] 0 []).2.foldl applyQuery g0).docs = true
    rw [hloop]
    exact hasKey_upsertList_self pth (descriptorProps item pth) g0.docs
  · show AllAt pth (descriptorProps item pth)
      ((ingestLoop env csz co none [item] 0 []).2.foldl applyQuery g0).docs
    rw [hloop]
    exact allAt_upsertList_self pth (descriptorProps item pth) g0.docs
  · show ((ingestLoop env csz co none [item] 0 []).2.foldl applyQuery g0).chunks = g0.chunks
    rw [hloop]
    rfl

/-- C1 counterexample: `a.pdf` really has 2 extracted (empty) pages and
yields zero chunks, yet the stored Document's `page_count` is 0, not 2 —
the claim that it "reflects the real extracted page count" is false on
the code: the zero-chunk branch stores the descriptor's value with no
fallback. -/
theorem C1_empty_doc_registration_counterexample :
    (extract_pdf_text_by_page envC1 "a.pdf").length = 2 ∧
    chunk_pages envC1.split (extract_pdf_text_by_page envC1 "a.pdf") 1000 200 = [] ∧
    (ingest_from_json envC1 emptyGraph "pdf_chunks" 1000 200 none [itemC1]).graph.docs =
      [("a.pdf", ⟨"a.pdf", "a.pdf", 0, "application/pdf"⟩)] ∧
    (0 : Int) ≠ 2 := by
  decide

/-- C1 witness: the amended statement holds at the concrete
zero-extractable-text input. -/
theorem C1_empty_doc_registration_witness :
    (pyOrS itemC1.path itemC1.Path = some "a.pdf") ∧ ("a.pdf" ≠ "") ∧
    (envC1.isFile "a.pdf" = true) ∧
    (chunk_pages envC1.split (extract_pdf_text_by_page envC1 "a.pdf") 1000 200 = []) ∧
    ((ingest_from_json envC1 emptyGraph "pdf_chunks" 1000 200 none [itemC1]).processed = 1 ∧
     (ingest_from_json envC1 emptyGraph "pdf_chunks" 1000 200 none [itemC1]).queries =
       [Query.docOnly "a.pdf" (descriptorProps itemC1 "a.pdf")] ∧
     hasKey "a.pdf"
       (ingest_from_json envC1 emptyGraph "pdf_chunks" 1000 200 none [itemC1]).graph.docs = true ∧
     AllAt "a.pdf" (descriptorProps itemC1 "a.pdf")
       (ingest_from_json envC1 emptyGraph "pdf_chunks" 1000 200 none [itemC1]).graph.docs ∧
     (ingest_from_json envC1 emptyGraph "pdf_chunks" 1000 200 none [itemC1]).graph.chunks =
       emptyGraph.chunks ∧
     (descriptorProps itemC1 "a.pdf").page_count =
       as_int (pyOrJ itemC1.PageCount (pyOrJ itemC1.pagesF (JVal.i 0))) 0) :=
  ⟨by decide, by decide, by decide, by decide,
   C1_empty_doc_registration envC1 1000 200 "pdf_chunks" emptyGraph itemC1 "a.pdf"
     (by decide) (by decide) (by decide) (by decide)⟩

/-- C5: an entry carrying only a path, whose extraction yields at least
one chunk, is stored with `title` and `file_name` equal to the base name
of the path, `mime_type` `"application/pdf"`, and `page_count` equal to
the number of extracted pages. -/
theorem C5_fallback_metadata (env : Env) (csz co : Nat) (idxName : String)
    (g0 : GraphState) (pth : String) (hpne : pth ≠ "") (hf : env.isFile pth = true)
    (hch : chunk_pages env.split (extract_pdf_text_by_page env pth) csz co ≠ []) :
    (ingest_from_json env g0 idxName csz co none [onlyPathItem pth]).processed = 1 ∧
    hasKey pth
      (ingest_from_json env g0 idxName csz co none [onlyPathItem pth]).graph.docs = true ∧
    AllAt pth
      ⟨basename pth, basename pth,
        ((extract_pdf_text_by_page env pth).length : Int), "application/pdf"⟩
      (ingest_from_json env g0 idxName csz co none [onlyPathItem pth]).graph.docs := by
  have hpy : pyOrS (onlyPathItem pth).path (onlyPathItem pth).Path = some pth := by
    simp [onlyPathItem, pyOrS, falsyS, hpne]
  have hpi : processItem env csz co (onlyPathItem pth) 0 [] =
      (1, [Query.docWithChunks pth
        ⟨basename pth, basename pth,
          ((extract_pdf_text_by_page env pth).length : Int), "application/pdf"⟩
        (chunk_pages env.split (extract_pdf_text_by_page env pth) csz co)]) := by
    rw [processItem_of_valid env csz co (onlyPathItem pth) 0 [] pth hpy hpne hf,
      if_neg hch]
    rfl
  have hloop : ingestLoop env csz co none [onlyPathItem pth] 0 [] =
      (1, [Query.docWithChunks pth
        ⟨basename pth, basename pth,
          ((extract_pdf_text_by_page env pth).length : Int), "application/pdf"⟩
        (chunk_pages env.split (extract_pdf_text_by_page env pth) csz co)]) := by
    rw [ingestLoop_cons_go env csz co none (onlyPathItem pth) [] 0 [] rfl, hpi]
    rfl
  refine ⟨?_, ?_, ?_⟩
  · show (ingestLoop env csz co none [onlyPathItem pth] 0 []).1 = 1
    rw [hloop]
  · show hasKey pth
      ((ingestLoop env csz co none [onlyPathItem pth] 0 []).2.foldl applyQuery g0).docs = true
    rw [hloop, List.foldl_cons, List.foldl_nil, docs_applyQuery_docWithChunks]
    exact hasKey_upsertList_self pth _ g0.docs
  · show AllAt pth
      ⟨basename pth, basename pth,
        ((extract_pdf_text_by_page env pth).length : Int), "application/pdf"⟩
      ((ingestLoop env csz co none [onlyPathItem pth] 0 []).2.foldl applyQuery g0).docs
    rw [hloop, List.foldl_cons, List.foldl_nil, docs_applyQuery_docWithChunks]
    exact allAt_upsertList_self pth _ g0.docs

/-- C5 witness: the path-only descriptor for the concrete two-page file
is stored with base-name title, default mime type and `page_count = 2`. -/
theorem C5_fallback_metadata_witness :
    ("b.pdf" ≠ "") ∧ (envC5.isFile "b.pdf" = true) ∧
    (chunk_pages envC5.split (extract_pdf_text_by_page envC5 "b.pdf") 1000 200 ≠ []) ∧
    ((ingest_from_json envC5 emptyGraph "pdf_chunks" 1000 200 none
        [onlyPathItem "b.pdf"]).processed = 1 ∧
     hasKey "b.pdf" (ingest_from_json envC5 emptyGraph "pdf_chunks" 1000 200 none
        [onlyPathItem "b.pdf"]).graph.docs = true ∧
     AllAt "b.pdf"
       ⟨basename "b.pdf", basename "b.pdf",
         ((extract_pdf_text_by_page envC5 "b.pdf").length : Int), "application/pdf"⟩
       (ingest_from_json envC5 emptyGraph "pdf_chunks" 1000 200 none
         [onlyPathItem "b.pdf"]).graph.docs) :=
  ⟨by decide, by decide, by decide,
   C5_fallback_metadata envC5 1000 200 "pdf_chunks" emptyGraph "b.pdf"
     (by decide) (by decide) (by decide)⟩

end GraphRAG
